import Mathlib

/-
Verification of the compliance-reporting pipeline
(source file: src/all_aws_cis14_compliance.py).

The script resolves AWS account identifiers from delegated-role
reference strings, fetches one compliance report per account over a
thread pool, flattens the nested recommendation records into
NormalizedFinding values, and prints the collection as one JSON array.

Strings are modelled as List Char.  Raised Python exceptions are
modelled with Except PyError.  The concurrent completion order of the
fetch tasks is modelled as an explicit permutation of the submitted
task list.
-/

/-- Python exception kinds that the script can raise.  keyError models a
dict KeyError, indexError a list IndexError, valueError and typeError
the failures of the int builtin, apiError a transport or service
failure inside the Lacework SDK calls. -/
inductive PyError where
  | keyError : PyError
  | indexError : PyError
  | valueError : PyError
  | typeError : PyError
  | apiError : PyError
deriving DecidableEq, Repr

/-- beginsWith sep s is true when sep occurs at the start of s
(character-for-character match). -/
def beginsWith : List Char → List Char → Bool
  | [], _ => true
  | _ :: _, [] => false
  | a :: as, b :: bs => a == b && beginsWith as bs

/-- First occurrence of the separator in s, scanning left to right:
returns the text before the occurrence and the text after it, or none
when the separator does not occur.  This is the single step of the
Python str.split used at line 36 of the source. -/
def splitFirst (sep : List Char) : List Char → Option (List Char × List Char)
  | [] => none
  | c :: rest =>
    if beginsWith sep (c :: rest) then some ([], (c :: rest).drop sep.length)
    else
      match splitFirst sep rest with
      | none => none
      | some (pr, post) => some (c :: pr, post)

/-- Fuel-indexed worker for pySplit. -/
def pySplitAux (sep : List Char) : Nat → List Char → List (List Char)
  | 0, s => [s]
  | Nat.succ fuel, s =>
    match splitFirst sep s with
    | none => [s]
    | some (pr, post) => pr :: pySplitAux sep fuel post

/-- Python str.split with a nonempty separator: repeatedly cut at the
leftmost occurrence of the separator.  The fuel s.length + 1 is enough
because every cut consumes at least one character. -/
def pySplit (sep s : List Char) : List (List Char) :=
  pySplitAux sep (s.length + 1) s

/-- The text before the first occurrence of the separator, or the whole
string when the separator does not occur: the head of pySplit. -/
def takeUntilSep (sep s : List Char) : List Char :=
  match splitFirst sep s with
  | none => s
  | some (pr, _) => pr

/-- The separator of the outer split at source line 36. -/
def dcolon : List Char := [':', ':']

/-- The separator of the inner split at source line 36. -/
def scolon : List Char := [':']

/-- Source line 36: roleArn.split('::')[1].split(':')[0].  The [1]
index raises IndexError (modelled as none) exactly when the string has
no double colon; the [0] index always succeeds because a split result
is never empty. -/
def extractAccountId (roleArn : List Char) : Option (List Char) :=
  match (pySplit dcolon roleArn)[1]? with
  | none => none
  | some seg => (pySplit scolon seg)[0]?

/-- A loosely typed Python value as it appears in the report payloads:
a string, an integer, or a list.  The VIOLATIONS payload is carried
opaquely as such a value. -/
inductive PyVal where
  | str : List Char → PyVal
  | int : Int → PyVal
  | list : List PyVal → PyVal

/-- Digits of a decimal literal read as a natural number; none when the
string is empty or holds a non-digit character. -/
def digitsToNat (s : List Char) : Option Nat :=
  match s with
  | [] => none
  | _ =>
    if s.all Char.isDigit then
      some (s.foldl (fun acc c => acc * 10 + (c.toNat - '0'.toNat)) 0) else none

/-- The int builtin applied to a string: an optional sign followed by a
nonempty run of digits.  (Python also strips surrounding whitespace and
allows underscore digit separators; those inputs do not occur in the
report payloads and are modelled as failures.) -/
def strToInt (s : List Char) : Option Int :=
  match s with
  | '-' :: rest => (digitsToNat rest).map (fun n => -(n : Int))
  | '+' :: rest => (digitsToNat rest).map (fun n => (n : Int))
  | _ => (digitsToNat s).map (fun n => (n : Int))

/-- The int builtin on a PyVal: integers pass through, strings are
parsed (ValueError when non-numeric), lists raise TypeError. -/
def pyInt : PyVal → Except PyError Int
  | .int n => .ok n
  | .list _ => .error .typeError
  | .str s =>
    match strToInt s with
    | none => .error .valueError
    | some n => .ok n

/-- Source lines 14-20: the NormalizedFinding constructor stores title,
account_id and violations unchanged and coerces resource_count and
severity with int. -/
structure NormalizedFinding where
  title : PyVal
  account_id : PyVal
  violations : PyVal
  resource_count : Int
  severity : Int

/-- One recommendation dict from a report section.  Each field is the
value found under the corresponding key, or none when the key is
absent from the dict. -/
structure Recommendation where
  ACCOUNT_ID : Option PyVal
  VIOLATIONS : Option PyVal
  RESOURCE_COUNT : Option PyVal
  SEVERITY : Option PyVal
  TITLE : Option PyVal

/-- One report section: a dict that optionally holds a recommendations
list (source line 89 checks for the key). -/
structure Section where
  recommendations : Option (List Recommendation)

/-- The response of lw_client.reports.get: its data entry, which can be
null (modelled as none) or an empty list, both falsy in the truth test
at source line 48. -/
structure ReportResponse where
  dataField : Option (List Section)

/-- The innermost level of a cloud-account configuration: the dict that
optionally holds the roleArn key. -/
structure RoleArnField where
  roleArn : Option (List Char)
deriving DecidableEq, Repr

/-- The middle level: the dict that optionally holds the
crossAccountCredentials key. -/
structure CredsField where
  crossAccountCredentials : Option RoleArnField
deriving DecidableEq, Repr

/-- One entry of the data list of cloud_accounts.get: a configuration dict
that optionally holds the nested data key. -/
structure CloudAccountConfig where
  dataField : Option CredsField
deriving DecidableEq, Repr

/-- The chained dict accesses of source line 34; none models the
KeyError raised when a level is missing. -/
def getRoleArn (cfg : CloudAccountConfig) : Option (List Char) :=
  match cfg.dataField with
  | none => none
  | some d =>
    match d.crossAccountCredentials with
    | none => none
    | some c => c.roleArn

/-- The loop body of get_aws_account_ids for one configuration (source
lines 34-37): a missing nested key raises KeyError, a roleArn without a
double colon raises IndexError, otherwise the extracted id is returned. -/
def resolveOne (cfg : CloudAccountConfig) : Except PyError (List Char) :=
  match getRoleArn cfg with
  | none => .error .keyError
  | some arn =>
    match extractAccountId arn with
    | none => .error .indexError
    | some accId => .ok accId

/-- Source lines 29-39: the Account Resolver over the returned list of
configurations, in listing order, stopping at the first raised error. -/
def get_aws_account_ids : List CloudAccountConfig → Except PyError (List (List Char))
  | [] => .ok []
  | cfg :: rest =>
    match resolveOne cfg with
    | .error e => .error e
    | .ok accId =>
      match get_aws_account_ids rest with
      | .error e => .error e
      | .ok ids => .ok (accId :: ids)

/-- Source lines 42-48: the Report Fetcher body after the SDK call
returned.  A truthy data payload is passed through together with the
submission index; a falsy one (null or empty) is replaced by a
single-element list holding one empty record. -/
def get_compliance_results (resp : ReportResponse) (i : Nat) : List Section × Nat :=
  match resp.dataField with
  | some (s :: rest) => (s :: rest, i)
  | some [] => ([Section.mk none], i)
  | none => ([Section.mk none], i)

/-- Source lines 90-99: build one NormalizedFinding from one
recommendation dict.  The five key lookups happen before the int
coercions, matching the Python evaluation order of the constructor
arguments; a missing key raises KeyError. -/
def normalizeRec (rec : Recommendation) : Except PyError NormalizedFinding :=
  match rec.ACCOUNT_ID with
  | none => .error .keyError
  | some aid =>
    match rec.VIOLATIONS with
    | none => .error .keyError
    | some viol =>
      match rec.RESOURCE_COUNT with
      | none => .error .keyError
      | some rcv =>
        match rec.SEVERITY with
        | none => .error .keyError
        | some sev =>
          match rec.TITLE with
          | none => .error .keyError
          | some ttl =>
            match pyInt rcv with
            | .error e => .error e
            | .ok rc =>
              match pyInt sev with
              | .error e => .error e
              | .ok sv => .ok (NormalizedFinding.mk ttl aid viol rc sv)

/-- The recommendations of one section, with the explicit defaulting of
source line 89: an absent key is an empty list. -/
def sectionRecs (sec : Section) : List Recommendation :=
  match sec.recommendations with
  | none => []
  | some recs => recs

/-- Source lines 90-100: the inner loop over one recommendations list,
in list order, stopping at the first raised error. -/
def normalizeRecs : List Recommendation → Except PyError (List NormalizedFinding)
  | [] => .ok []
  | r :: rest =>
    match normalizeRec r with
    | .error e => .error e
    | .ok nf =>
      match normalizeRecs rest with
      | .error e => .error e
      | .ok rest2 => .ok (nf :: rest2)

/-- Normalization of one section (source line 89 plus the inner loop). -/
def normalizeSection (sec : Section) : Except PyError (List NormalizedFinding) :=
  normalizeRecs (sectionRecs sec)

/-- Source lines 88-100: the Finding Normalizer over one raw report,
section order first, recommendation order within a section. -/
def normalizeReport : List Section → Except PyError (List NormalizedFinding)
  | [] => .ok []
  | sec :: rest =>
    match normalizeSection sec with
    | .error e => .error e
    | .ok fs =>
      match normalizeReport rest with
      | .error e => .error e
      | .ok rest2 => .ok (fs ++ rest2)

/-- All recommendations of a raw report in traversal order. -/
def reportRecs (report : List Section) : List Recommendation :=
  (report.map sectionRecs).flatten

/-- Source lines 83-101: the collection loop of the Concurrent
Orchestrator.  The list holds the per-task results in completion
order; retrieving a failed task re-raises its error, a successful one
is normalized and its findings are appended to the accumulator. -/
def runTasksE : List (Except PyError (List Section)) → Except PyError (List NormalizedFinding)
  | [] => .ok []
  | t :: rest =>
    match t with
    | .error e => .error e
    | .ok secs =>
      match normalizeReport secs with
      | .error e => .error e
      | .ok fs =>
        match runTasksE rest with
        | .error e => .error e
        | .ok rest2 => .ok (fs ++ rest2)

/-- One submitted task of source line 81: the enumerated pair (i,
account id) is turned into the fetch call; on success the tuple member
0 of get_compliance_results is what the collection loop consumes. -/
def taskResult (fetch : List Char → Except PyError ReportResponse)
    (p : Nat × List Char) : Except PyError (List Section) :=
  Except.map (fun resp => (get_compliance_results resp p.1).1) (fetch p.2)

/-- Source lines 78-101: fan-out then collection, with the completion
order supplied explicitly as the list of enumerated tasks in the order
the scheduler finished them. -/
def orchestrate (fetch : List Char → Except PyError ReportResponse)
    (completed : List (Nat × List Char)) : Except PyError (List NormalizedFinding) :=
  runTasksE (completed.map (taskResult fetch))

/-- A JSON value as produced by json.dumps and read back by a JSON
parser: the text layer of the dumps call is taken as faithful, so the
emitted document is modelled by its JSON syntax tree. -/
inductive Json where
  | str : List Char → Json
  | num : Int → Json
  | arr : List Json → Json
  | obj : List (List Char × Json) → Json

mutual

/-- How json.dumps renders a PyVal. -/
def pyValToJson : PyVal → Json
  | .str s => .str s
  | .int n => .num n
  | .list vs => .arr (pyValsToJson vs)

/-- How json.dumps renders a list of PyVal values. -/
def pyValsToJson : List PyVal → List Json
  | [] => []
  | v :: vs => pyValToJson v :: pyValsToJson vs

end

/-- Source line 103: the default hook serializes a NormalizedFinding
through its field dict, whose insertion order is the assignment order
of the constructor (title, account_id, violations, resource_count,
severity). -/
def findingToJson (nf : NormalizedFinding) : Json :=
  .obj [("title".toList, pyValToJson nf.title),
        ("account_id".toList, pyValToJson nf.account_id),
        ("violations".toList, pyValToJson nf.violations),
        ("resource_count".toList, .num nf.resource_count),
        ("severity".toList, .num nf.severity)]

/-- Source line 103, the Emitter: the printed document is a JSON array
of the serialized findings in accumulator order. -/
def emitJson (findings : List NormalizedFinding) : Json :=
  .arr (findings.map findingToJson)

/-- Source lines 51-103 as a whole run: resolve the accounts, fan out
one task per enumerated account id, collect in the completion order
chosen by the scheduler sched, and print the emitted array.  An
uncaught error anywhere aborts the run before the print. -/
def mainRun (configs : List CloudAccountConfig)
    (fetch : List Char → Except PyError ReportResponse)
    (sched : List (Nat × List Char) → List (Nat × List Char)) : Except PyError Json :=
  match get_aws_account_ids configs with
  | .error e => .error e
  | .ok accounts =>
    match orchestrate fetch (sched accounts.enum) with
    | .error e => .error e
    | .ok findings => .ok (emitJson findings)

/-- What the process writes to standard output: the document on a
successful run, nothing when an error propagated (the print at source
line 103 is the last statement and is never reached on error). -/
def printedOutput (result : Except PyError Json) : Option Json :=
  match result with
  | .ok doc => some doc
  | .error _ => none

/-- The process exit status: zero on success, one when an uncaught
exception terminates the interpreter. -/
def exitCode (result : Except PyError Json) : Nat :=
  match result with
  | .ok _ => 0
  | .error _ => 1

/-- The error taxonomy of the spec maps resolver-side KeyError and
IndexError to MalformedReference. -/
def IsMalformedReference (e : PyError) : Prop :=
  e = .keyError ∨ e = .indexError

/-- The error taxonomy of the spec maps the int coercion failures
(ValueError, TypeError) to FormatError. -/
def IsFormatError (e : PyError) : Prop :=
  e = .valueError ∨ e = .typeError

/-- The error taxonomy of the spec maps a KeyError on a recommendation
dict to MissingField. -/
def IsMissingField (e : PyError) : Prop :=
  e = .keyError

mutual

/-- Reading a PyVal back out of a deserialized JSON value. -/
def jsonToPyVal : Json → Option PyVal
  | .str s => some (.str s)
  | .num n => some (.int n)
  | .arr js =>
    match jsonsToPyVals js with
    | none => none
    | some vs => some (.list vs)
  | .obj _ => none

/-- Reading a list of PyVal values back out of deserialized JSON. -/
def jsonsToPyVals : List Json → Option (List PyVal)
  | [] => some []
  | j :: js =>
    match jsonToPyVal j with
    | none => none
    | some v =>
      match jsonsToPyVals js with
      | none => none
      | some vs => some (v :: vs)

end

/-- Field lookup in a deserialized JSON object. -/
def jlookup (k : List Char) : List (List Char × Json) → Option Json
  | [] => none
  | (k2, v) :: rest => if k2 = k then some v else jlookup k rest

/-- A deserialized JSON value read as an integer. -/
def jAsInt : Json → Option Int
  | .num n => some n
  | _ => none

/-- Deserializing one finding object: read the five fields back. -/
def decodeFinding (j : Json) : Option NormalizedFinding :=
  match j with
  | .obj kvs =>
    match jlookup "title".toList kvs, jlookup "account_id".toList kvs,
        jlookup "violations".toList kvs, jlookup "resource_count".toList kvs,
        jlookup "severity".toList kvs with
    | some tj, some aj, some vj, some rj, some sj =>
      match jsonToPyVal tj, jsonToPyVal aj, jsonToPyVal vj, jAsInt rj, jAsInt sj with
      | some t, some a, some v, some rc, some sv =>
        some (NormalizedFinding.mk t a v rc sv)
      | _, _, _, _, _ => none
    | _, _, _, _, _ => none
  | _ => none

/-- Deserializing a list of finding objects. -/
def decodeFindingList : List Json → Option (List NormalizedFinding)
  | [] => some []
  | j :: js =>
    match decodeFinding j with
    | none => none
    | some nf =>
      match decodeFindingList js with
      | none => none
      | some nfs => some (nf :: nfs)

/-- Deserializing the emitted document: a JSON array of finding
objects. -/
def decodeFindings (j : Json) : Option (List NormalizedFinding) :=
  match j with
  | .arr js => decodeFindingList js
  | _ => none

/-- The required-field correspondence between a source recommendation
and an output record: the three opaque fields are carried over
unchanged and the two numeric fields are the int coercions of the
source values. -/
def FieldMatch (r : Recommendation) (nf : NormalizedFinding) : Prop :=
  r.ACCOUNT_ID = some nf.account_id ∧
  r.VIOLATIONS = some nf.violations ∧
  r.TITLE = some nf.title ∧
  (∃ v, r.RESOURCE_COUNT = some v ∧ pyInt v = Except.ok nf.resource_count) ∧
  (∃ v, r.SEVERITY = some v ∧ pyInt v = Except.ok nf.severity)

/-- The attribution key of one output record, as the order-independence
property of the spec states it. -/
def findingKey (nf : NormalizedFinding) : PyVal × Int × Int :=
  (nf.account_id, nf.severity, nf.resource_count)

theorem pySplitAux_get0 (sep : List Char) (fuel : Nat) (s : List Char) (h : 0 < fuel) :
    (pySplitAux sep fuel s)[0]? = some (takeUntilSep sep s) := by
  cases fuel with
  | zero => exact absurd h (by omega)
  | succ f =>
    simp only [pySplitAux, takeUntilSep]
    rcases hs : splitFirst sep s with _ | ⟨pre, post⟩ <;> simp [hs]

theorem pySplit_get0 (sep s : List Char) :
    (pySplit sep s)[0]? = some (takeUntilSep sep s) :=
  pySplitAux_get0 sep (s.length + 1) s (by omega)

theorem pySplit_get1 (sep s : List Char) :
    (pySplit sep s)[1]? =
      match splitFirst sep s with
      | none => none
      | some (_, post) => some (takeUntilSep sep post) := by
  unfold pySplit
  rcases hs : splitFirst sep s with _ | ⟨pre, post⟩
  · simp [pySplitAux, hs]
  · have hlen : 0 < s.length := by
      cases s with
      | nil => simp [splitFirst] at hs
      | cons c cs => simp
    simp only [pySplitAux, hs]
    simpa using pySplitAux_get0 sep s.length post hlen

theorem extractAccountId_eq (s : List Char) :
    extractAccountId s =
      match splitFirst dcolon s with
      | none => none
      | some (_, post) => some (takeUntilSep scolon (takeUntilSep dcolon post)) := by
  unfold extractAccountId
  rw [pySplit_get1]
  rcases hs : splitFirst dcolon s with _ | ⟨pre, post⟩
  · simp [hs]
  · simp [hs, pySplit_get0]

theorem beginsWith_dcolon_false {c : Char} (hc : c ≠ ':') (s : List Char) :
    beginsWith dcolon (c :: s) = false := by
  have h1 : (':' == c) = false := beq_eq_false_iff_ne.mpr (Ne.symm hc)
  simp [beginsWith, dcolon, h1]

theorem beginsWith_scolon_false {c : Char} (hc : c ≠ ':') (s : List Char) :
    beginsWith scolon (c :: s) = false := by
  have h1 : (':' == c) = false := beq_eq_false_iff_ne.mpr (Ne.symm hc)
  simp [beginsWith, scolon, h1]

theorem beginsWith_scolon_true (s : List Char) : beginsWith scolon (':' :: s) = true := by
  simp [beginsWith, scolon]

theorem splitFirst_cons_neg {sep : List Char} {c : Char} {s : List Char}
    (h : beginsWith sep (c :: s) = false) :
    splitFirst sep (c :: s) =
      match splitFirst sep s with
      | none => none
      | some (pr, post) => some (c :: pr, post) := by
  simp [splitFirst, h]

theorem takeUntilSep_cons_neg {sep : List Char} {c : Char} {s : List Char}
    (h : beginsWith sep (c :: s) = false) :
    takeUntilSep sep (c :: s) = c :: takeUntilSep sep s := by
  unfold takeUntilSep
  rw [splitFirst_cons_neg h]
  rcases hs : splitFirst sep s with _ | ⟨pre, post⟩ <;> simp [hs]

theorem splitFirst_scolon_cons (s : List Char) : splitFirst scolon (':' :: s) = some ([], s) := by
  simp only [splitFirst]
  rw [if_pos (beginsWith_scolon_true s)]
  simp [scolon]

theorem takeUntilSep_scolon_colon (s : List Char) : takeUntilSep scolon (':' :: s) = [] := by
  simp [takeUntilSep, splitFirst_scolon_cons]

theorem takeUntilSep_shape (sep : List Char) (c : Char) (s : List Char) :
    takeUntilSep sep (c :: s) = [] ∨ ∃ t, takeUntilSep sep (c :: s) = c :: t := by
  unfold takeUntilSep splitFirst
  by_cases h : beginsWith sep (c :: s) = true
  · simp [h]
  · simp only [Bool.not_eq_true] at h
    simp only [h, if_false, Bool.false_eq_true]
    rcases hs : splitFirst sep s with _ | ⟨pre, post⟩
    · exact Or.inr ⟨s, by simp [hs]⟩
    · exact Or.inr ⟨pre, by simp [hs]⟩

theorem takeUntil_chain (s : List Char) :
    takeUntilSep scolon (takeUntilSep dcolon s) = takeUntilSep scolon s := by
  induction s with
  | nil => rfl
  | cons c rest ih =>
    by_cases hc : c = ':'
    · subst hc
      rw [takeUntilSep_scolon_colon]
      rcases takeUntilSep_shape dcolon ':' rest with h | ⟨t, h⟩
      · rw [h]; rfl
      · rw [h, takeUntilSep_scolon_colon]
    · have hd : beginsWith dcolon (c :: rest) = false := beginsWith_dcolon_false hc rest
      have hs : beginsWith scolon (c :: rest) = false := beginsWith_scolon_false hc rest
      have hs2 : beginsWith scolon (c :: takeUntilSep dcolon rest) = false :=
        beginsWith_scolon_false hc _
      rw [takeUntilSep_cons_neg hd, takeUntilSep_cons_neg hs, takeUntilSep_cons_neg hs2, ih]

theorem takeUntilSep_scolon_eq_takeWhile (s : List Char) :
    takeUntilSep scolon s = s.takeWhile (fun c => !(c == ':')) := by
  induction s with
  | nil => rfl
  | cons c rest ih =>
    by_cases hc : c = ':'
    · subst hc
      rw [takeUntilSep_scolon_colon]
      simp [List.takeWhile_cons]
    · have hs : beginsWith scolon (c :: rest) = false := beginsWith_scolon_false hc rest
      have hb : (c == ':') = false := beq_eq_false_iff_ne.mpr hc
      rw [takeUntilSep_cons_neg hs, ih, List.takeWhile_cons]
      simp [hb]

theorem splitFirst_scolon_append {a : List Char} (h : ∀ c ∈ a, c ≠ ':') (t : List Char) :
    splitFirst scolon (a ++ ':' :: t) = some (a, t) := by
  induction a with
  | nil =>
    simp only [List.nil_append]
    exact splitFirst_scolon_cons t
  | cons c rest ih =>
    have hc : c ≠ ':' := h c (by simp)
    have hb : beginsWith scolon (c :: (rest ++ ':' :: t)) = false := beginsWith_scolon_false hc _
    rw [List.cons_append, splitFirst_cons_neg hb, ih (fun x hx => h x (by simp [hx]))]

theorem takeUntilSep_scolon_append {a : List Char} (h : ∀ c ∈ a, c ≠ ':') (t : List Char) :
    takeUntilSep scolon (a ++ ':' :: t) = a := by
  simp [takeUntilSep, splitFirst_scolon_append h]

theorem splitFirst_arn (rest : List Char) :
    splitFirst dcolon ("arn:aws:iam::".toList ++ rest) = some ("arn:aws:iam".toList, rest) := rfl

/-- A well-formed delegated-role reference string of the documented
format, built from its account-id digits and role name. -/
def mkRoleArn (digits name : List Char) : List Char :=
  "arn:aws:iam::".toList ++ digits ++ ":role/".toList ++ name

theorem resolveOne_error_malformed (cfg : CloudAccountConfig) (e : PyError)
    (h : resolveOne cfg = Except.error e) : IsMalformedReference e := by
  unfold resolveOne at h
  rcases h1 : getRoleArn cfg with _ | arn
  · simp only [h1] at h
    injection h with he
    exact Or.inl he.symm
  · simp only [h1] at h
    rcases h2 : extractAccountId arn with _ | a
    · simp only [h2] at h
      injection h with he
      exact Or.inr he.symm
    · simp only [h2] at h
      exact Except.noConfusion h

theorem resolveOne_bad (cfg : CloudAccountConfig)
    (hbad : getRoleArn cfg = none ∨
      ∃ arn, getRoleArn cfg = some arn ∧ splitFirst dcolon arn = none) :
    ∃ e, resolveOne cfg = Except.error e ∧ IsMalformedReference e := by
  rcases hbad with h | ⟨arn, ha, hs⟩
  · exact ⟨.keyError, by simp [resolveOne, h], Or.inl rfl⟩
  · have hex : extractAccountId arn = none := by
      rw [extractAccountId_eq, hs]
    exact ⟨.indexError, by simp [resolveOne, ha, hex], Or.inr rfl⟩

theorem resolver_fails (configs : List CloudAccountConfig) (cfg : CloudAccountConfig)
    (hmem : cfg ∈ configs)
    (hcfg : ∃ e, resolveOne cfg = Except.error e ∧ IsMalformedReference e) :
    ∃ e, get_aws_account_ids configs = Except.error e ∧ IsMalformedReference e := by
  induction configs with
  | nil => cases hmem
  | cons c rest ih =>
    rcases List.mem_cons.mp hmem with rfl | hmem2
    · obtain ⟨e, he, hm⟩ := hcfg
      exact ⟨e, by simp [get_aws_account_ids, he], hm⟩
    · rcases hr : resolveOne c with e | accId
      · exact ⟨e, by simp [get_aws_account_ids, hr], resolveOne_error_malformed c e hr⟩
      · obtain ⟨e, he, hm⟩ := ih hmem2
        exact ⟨e, by simp [get_aws_account_ids, hr, he], hm⟩

/-- C3: for every well-formed roleArn string of the form
arn:aws:iam::<digits>:role/<name>, the Account Resolver extracts
exactly the digits segment (the substring after the double-colon
separator and before the next colon) as the account identifier of that
configuration. -/
theorem C3_resolver_extracts_digits (digits name : List Char)
    (hd : ∀ c ∈ digits, c.isDigit = true) :
    extractAccountId (mkRoleArn digits name) = some digits ∧
    ∀ cfg : CloudAccountConfig, getRoleArn cfg = some (mkRoleArn digits name) →
      resolveOne cfg = Except.ok digits := by
  have hne : ∀ c ∈ digits, c ≠ ':' := fun c hc heq =>
    absurd (heq ▸ hd c hc) (by decide)
  have harn : mkRoleArn digits name =
      "arn:aws:iam::".toList ++ (digits ++ ':' :: ("role/".toList ++ name)) := by
    simp [mkRoleArn, List.append_assoc]
  have h1 : extractAccountId (mkRoleArn digits name) = some digits := by
    rw [harn, extractAccountId_eq]
    simp only [splitFirst_arn]
    rw [takeUntil_chain, takeUntilSep_scolon_append hne]
  exact ⟨h1, fun cfg hc => by simp [resolveOne, hc, h1]⟩

theorem C3_witness :
    extractAccountId (mkRoleArn "791529083252".toList "lw-md-laceworkcwssarole".toList)
      = some "791529083252".toList :=
  (C3_resolver_extracts_digits "791529083252".toList "lw-md-laceworkcwssarole".toList
    (by decide)).1

/-- C10: whenever the roleArn string contains a double colon, the
Account Resolver succeeds without validating the extracted segment: it
returns the characters of the remainder after the first double colon
up to the next colon (the whole remainder when no colon follows), even
when that segment is empty or non-numeric. -/
theorem C10_resolver_no_validation (s pre post : List Char)
    (h : splitFirst dcolon s = some (pre, post)) :
    extractAccountId s = some (post.takeWhile (fun c => !(c == ':'))) := by
  rw [extractAccountId_eq]
  simp only [h]
  rw [takeUntil_chain, takeUntilSep_scolon_eq_takeWhile]

theorem C10_witness : extractAccountId "a:::b".toList = some [] := by
  have h := C10_resolver_no_validation "a:::b".toList "a".toList ":b".toList (by decide)
  exact h.trans (by decide)

/-- C4: the Account Resolver fails with a MalformedReference error (a
KeyError or IndexError, the errors the spec taxonomy groups under that
name) whenever some returned configuration lacks the nested fields
data.crossAccountCredentials.roleArn or its roleArn string has no
double-colon delimiter; in either case resolution returns no result. -/
theorem C4_resolver_malformed (configs : List CloudAccountConfig)
    (cfg : CloudAccountConfig) (hmem : cfg ∈ configs)
    (hbad : getRoleArn cfg = none ∨
      ∃ arn, getRoleArn cfg = some arn ∧ splitFirst dcolon arn = none) :
    (∃ e, get_aws_account_ids configs = Except.error e ∧ IsMalformedReference e) ∧
    ∀ ids, get_aws_account_ids configs ≠ Except.ok ids := by
  obtain ⟨e, he, hm⟩ := resolver_fails configs cfg hmem (resolveOne_bad cfg hbad)
  refine ⟨⟨e, he, hm⟩, fun ids hid => ?_⟩
  rw [he] at hid
  exact Except.noConfusion hid

theorem C4_witness :
    (∃ e, get_aws_account_ids [CloudAccountConfig.mk none] = Except.error e ∧
      IsMalformedReference e) ∧
    ∀ ids, get_aws_account_ids [CloudAccountConfig.mk none] ≠ Except.ok ids :=
  C4_resolver_malformed [CloudAccountConfig.mk none] (CloudAccountConfig.mk none)
    (by simp) (Or.inl rfl)

/-- The sample recommendation of the end-to-end scenario in the spec. -/
def sampleRec : Recommendation :=
  Recommendation.mk (some (PyVal.str "111111111111".toList))
    (some (PyVal.list [PyVal.str "S3 bucket public".toList]))
    (some (PyVal.str "3".toList)) (some (PyVal.str "2".toList))
    (some (PyVal.str "S3 Public Access".toList))

/-- The normalized record the sample recommendation produces. -/
def sampleFinding : NormalizedFinding :=
  NormalizedFinding.mk (PyVal.str "S3 Public Access".toList)
    (PyVal.str "111111111111".toList)
    (PyVal.list [PyVal.str "S3 bucket public".toList]) 3 2

/-- C5: the Report Fetcher hands on a present and non-empty data
payload unchanged, and otherwise returns the single-element list
holding one empty record, so the Normalizer never receives an empty
top-level sequence from it. -/
theorem C5_fetcher_payload (resp : ReportResponse) (i : Nat) :
    (∀ s rest, resp.dataField = some (s :: rest) →
      get_compliance_results resp i = (s :: rest, i)) ∧
    ((resp.dataField = none ∨ resp.dataField = some []) →
      get_compliance_results resp i = ([Section.mk none], i)) ∧
    (get_compliance_results resp i).1 ≠ [] := by
  refine ⟨fun s rest h => ?_, fun h => ?_, ?_⟩
  · simp [get_compliance_results, h]
  · rcases h with h | h <;> simp [get_compliance_results, h]
  · rcases hd : resp.dataField with _ | (_ | ⟨s, rest⟩) <;>
      simp [get_compliance_results, hd]

theorem C5_witness :
    get_compliance_results (ReportResponse.mk (some [])) 7 = ([Section.mk none], 7) :=
  (C5_fetcher_payload (ReportResponse.mk (some [])) 7).2.1 (Or.inr rfl)

theorem normalizeRecs_of_forall2 {recs : List Recommendation} {nfs : List NormalizedFinding}
    (h : List.Forall₂ (fun r nf => normalizeRec r = Except.ok nf) recs nfs) :
    normalizeRecs recs = Except.ok nfs := by
  induction h with
  | nil => rfl
  | cons h1 h2 ih => simp [normalizeRecs, h1, ih]

/-- C6: the Normalizer yields an empty output on a report with no
sections, an empty output on one section without the recommendations
key (absence is not an error), and on one section whose K
recommendations each normalize it yields exactly those K records in
input order. -/
theorem C6_normalizer_shape :
    normalizeReport [] = Except.ok [] ∧
    (∀ sec : Section, sec.recommendations = none → normalizeReport [sec] = Except.ok []) ∧
    (∀ (recs : List Recommendation) (nfs : List NormalizedFinding),
      List.Forall₂ (fun r nf => normalizeRec r = Except.ok nf) recs nfs →
      normalizeReport [Section.mk (some recs)] = Except.ok nfs ∧
        nfs.length = recs.length) := by
  refine ⟨rfl, fun sec h => ?_, fun recs nfs h => ⟨?_, ?_⟩⟩
  · obtain ⟨r⟩ := sec
    cases h
    rfl
  · have hn : normalizeRecs recs = Except.ok nfs := normalizeRecs_of_forall2 h
    simp [normalizeReport, normalizeSection, sectionRecs, hn]
  · exact h.length_eq.symm

theorem C6_witness :
    normalizeReport [Section.mk (some [sampleRec])] = Except.ok [sampleFinding] ∧
    ([sampleFinding] : List NormalizedFinding).length =
      ([sampleRec] : List Recommendation).length :=
  C6_normalizer_shape.2.2 [sampleRec] [sampleFinding]
    (List.Forall₂.cons rfl List.Forall₂.nil)

/-- C7: normalization of a recommendation that lacks any of the five
required keys fails with the MissingField error (KeyError), and no
partial record is produced for it. -/
theorem C7_missing_key (rec : Recommendation)
    (h : rec.ACCOUNT_ID = none ∨ rec.VIOLATIONS = none ∨ rec.RESOURCE_COUNT = none ∨
      rec.SEVERITY = none ∨ rec.TITLE = none) :
    (normalizeRec rec = Except.error PyError.keyError ∧
      IsMissingField PyError.keyError) ∧
    ∀ nf, normalizeRec rec ≠ Except.ok nf := by
  obtain ⟨f1, f2, f3, f4, f5⟩ := rec
  simp only at h
  have hk : normalizeRec (Recommendation.mk f1 f2 f3 f4 f5)
      = Except.error PyError.keyError := by
    rcases h with h | h | h | h | h
    · subst h; rfl
    · subst h
      rcases f1 with _ | v1 <;> rfl
    · subst h
      rcases f1 with _ | v1 <;> rcases f2 with _ | v2 <;> rfl
    · subst h
      rcases f1 with _ | v1 <;> rcases f2 with _ | v2 <;> rcases f3 with _ | v3 <;> rfl
    · subst h
      rcases f1 with _ | v1 <;> rcases f2 with _ | v2 <;> rcases f3 with _ | v3 <;>
        rcases f4 with _ | v4 <;> rfl
  refine ⟨⟨hk, rfl⟩, fun nf hn => ?_⟩
  rw [hk] at hn
  exact Except.noConfusion hn

theorem C7_witness :
    (normalizeRec (Recommendation.mk none none none none none)
      = Except.error PyError.keyError ∧ IsMissingField PyError.keyError) ∧
    ∀ nf, normalizeRec (Recommendation.mk none none none none none) ≠ Except.ok nf :=
  C7_missing_key (Recommendation.mk none none none none none) (Or.inl rfl)

theorem pyInt_error_is_format (v : PyVal) (e : PyError) (h : pyInt v = Except.error e) :
    IsFormatError e := by
  rcases v with s | n | l
  · unfold pyInt at h
    rcases hs : strToInt s with _ | n
    · simp only [hs] at h
      injection h with he
      exact Or.inl he.symm
    · simp only [hs] at h
      exact Except.noConfusion h
  · exact Except.noConfusion h
  · injection h with he
    exact Or.inr he.symm

/-- C8: in a constructed NormalizedFinding the RESOURCE_COUNT and
SEVERITY values are the int coercions of the source values (the string
3 becomes the integer 3), and normalization fails with a FormatError
when either value is non-numeric. -/
theorem C8_int_coercion (aid viol ttl rcv sev : PyVal) :
    (∀ rc sv : Int, pyInt rcv = Except.ok rc → pyInt sev = Except.ok sv →
      normalizeRec (Recommendation.mk (some aid) (some viol) (some rcv) (some sev) (some ttl))
        = Except.ok (NormalizedFinding.mk ttl aid viol rc sv)) ∧
    (((∃ e, pyInt rcv = Except.error e) ∨ (∃ e, pyInt sev = Except.error e)) →
      ∃ e, IsFormatError e ∧
        normalizeRec (Recommendation.mk (some aid) (some viol) (some rcv) (some sev) (some ttl))
          = Except.error e) := by
  constructor
  · intro rc sv h1 h2
    simp [normalizeRec, h1, h2]
  · intro h
    rcases hr : pyInt rcv with e | rc
    · exact ⟨e, pyInt_error_is_format rcv e hr, by simp [normalizeRec, hr]⟩
    · rcases h with ⟨e, he⟩ | ⟨e, he⟩
      · rw [hr] at he
        exact Except.noConfusion he
      · exact ⟨e, pyInt_error_is_format sev e he, by simp [normalizeRec, hr, he]⟩

theorem C8_witness : normalizeRec sampleRec = Except.ok sampleFinding :=
  (C8_int_coercion (PyVal.str "111111111111".toList)
    (PyVal.list [PyVal.str "S3 bucket public".toList])
    (PyVal.str "S3 Public Access".toList)
    (PyVal.str "3".toList) (PyVal.str "2".toList)).1 3 2 rfl rfl

mutual

theorem pyVal_rt : (v : PyVal) → jsonToPyVal (pyValToJson v) = some v
  | .str s => rfl
  | .int n => rfl
  | .list vs => by
    have h := pyVals_rt vs
    simp [pyValToJson, jsonToPyVal, h]

theorem pyVals_rt : (vs : List PyVal) → jsonsToPyVals (pyValsToJson vs) = some vs
  | [] => rfl
  | v :: vs => by
    have h1 := pyVal_rt v
    have h2 := pyVals_rt vs
    simp [pyValsToJson, jsonsToPyVals, h1, h2]

end

theorem decodeFinding_rt (nf : NormalizedFinding) :
    decodeFinding (findingToJson nf) = some nf := by
  obtain ⟨t, a, v, rc, sv⟩ := nf
  simp [decodeFinding, findingToJson, jlookup, jAsInt, pyVal_rt]

theorem decodeFindingList_rt (nfs : List NormalizedFinding) :
    decodeFindingList (nfs.map findingToJson) = some nfs := by
  induction nfs with
  | nil => rfl
  | cons nf rest ih => simp [decodeFindingList, decodeFinding_rt, ih]

theorem decodeFindings_rt (nfs : List NormalizedFinding) :
    decodeFindings (emitJson nfs) = some nfs := by
  simp [decodeFindings, emitJson, decodeFindingList_rt]

theorem normalizeRec_fieldMatch (r : Recommendation) (nf : NormalizedFinding)
    (h : normalizeRec r = Except.ok nf) : FieldMatch r nf := by
  obtain ⟨f1, f2, f3, f4, f5⟩ := r
  rcases f1 with _ | aid
  · simp [normalizeRec] at h
  rcases f2 with _ | viol
  · simp [normalizeRec] at h
  rcases f3 with _ | rcv
  · simp [normalizeRec] at h
  rcases f4 with _ | sev
  · simp [normalizeRec] at h
  rcases f5 with _ | ttl
  · simp [normalizeRec] at h
  rcases hr : pyInt rcv with e | rc
  · simp [normalizeRec, hr] at h
  rcases hs : pyInt sev with e | sv
  · simp [normalizeRec, hr, hs] at h
  simp only [normalizeRec, hr, hs] at h
  injection h with h2
  subst h2
  exact ⟨rfl, rfl, rfl, ⟨rcv, rfl, hr⟩, ⟨sev, rfl, hs⟩⟩

theorem normalizeRecs_forall2 (recs : List Recommendation) (nfs : List NormalizedFinding)
    (h : normalizeRecs recs = Except.ok nfs) :
    List.Forall₂ (fun r nf => normalizeRec r = Except.ok nf) recs nfs := by
  induction recs generalizing nfs with
  | nil =>
    injection h with h2
    subst h2
    exact List.Forall₂.nil
  | cons r rest ih =>
    unfold normalizeRecs at h
    rcases h1 : normalizeRec r with e | nf
    · simp only [h1] at h
      exact Except.noConfusion h
    · simp only [h1] at h
      rcases h2 : normalizeRecs rest with e | nfs2
      · simp only [h2] at h
        exact Except.noConfusion h
      · simp only [h2] at h
        injection h with h3
        subst h3
        exact List.Forall₂.cons h1 (ih nfs2 h2)

theorem forall2_append {α β : Type} {R : α → β → Prop}
    {l1 u1 : List α} {l2 u2 : List β}
    (h1 : List.Forall₂ R l1 l2) (h2 : List.Forall₂ R u1 u2) :
    List.Forall₂ R (l1 ++ u1) (l2 ++ u2) := by
  induction h1 with
  | nil => simpa using h2
  | cons ha hb ih => exact List.Forall₂.cons ha ih

theorem normalizeReport_forall2 (report : List Section) (nfs : List NormalizedFinding)
    (h : normalizeReport report = Except.ok nfs) :
    List.Forall₂ (fun r nf => normalizeRec r = Except.ok nf) (reportRecs report) nfs := by
  induction report generalizing nfs with
  | nil =>
    injection h with h2
    subst h2
    exact List.Forall₂.nil
  | cons sec rest ih =>
    unfold normalizeReport at h
    rcases h1 : normalizeSection sec with e | fs
    · simp only [h1] at h
      exact Except.noConfusion h
    · simp only [h1] at h
      rcases h2 : normalizeReport rest with e | rest2
      · simp only [h2] at h
        exact Except.noConfusion h
      · simp only [h2] at h
        injection h with h3
        subst h3
        have hrr : reportRecs (sec :: rest) = sectionRecs sec ++ reportRecs rest := by
          simp [reportRecs]
        rw [hrr]
        exact forall2_append (normalizeRecs_forall2 _ _ h1) (ih rest2 h2)

/-- C9: for every raw report whose recommendations all normalize,
serializing the output of the Normalizer with the Emitter and
deserializing the resulting JSON yields the records back, and their
field values equal the corresponding required-field values of the
source recommendations (the numeric ones through the int coercion). -/
theorem C9_round_trip (report : List Section) (nfs : List NormalizedFinding)
    (h : normalizeReport report = Except.ok nfs) :
    decodeFindings (emitJson nfs) = some nfs ∧
    List.Forall₂ FieldMatch (reportRecs report) nfs := by
  refine ⟨decodeFindings_rt nfs, ?_⟩
  exact (normalizeReport_forall2 report nfs h).imp
    (fun {a b} hr => normalizeRec_fieldMatch a b hr)

theorem C9_witness :
    decodeFindings (emitJson [sampleFinding]) = some [sampleFinding] ∧
    List.Forall₂ FieldMatch (reportRecs [Section.mk (some [sampleRec])]) [sampleFinding] :=
  C9_round_trip [Section.mk (some [sampleRec])] [sampleFinding] rfl

theorem gcr_fst (resp : ReportResponse) (i : Nat) :
    (get_compliance_results resp i).1 = (get_compliance_results resp 0).1 := by
  rcases hd : resp.dataField with _ | (_ | ⟨s, rest⟩) <;> simp [get_compliance_results, hd]

/-- The sections a successful fetch of one account hands to the
Normalizer (the submission index does not influence them). -/
def fetchedSections (fetch : List Char → ReportResponse) (a : List Char) : List Section :=
  (get_compliance_results (fetch a) 0).1

/-- The findings of one successfully normalized report (empty on a
normalization error; used only under a success hypothesis). -/
def okFindings (secs : List Section) : List NormalizedFinding :=
  match normalizeReport secs with
  | .ok nfs => nfs
  | .error _ => []

/-- The findings one completed task contributes. -/
def taskFindings : Except PyError (List Section) → List NormalizedFinding
  | .ok secs => okFindings secs
  | .error _ => []

theorem taskResult_pure (fetch : List Char → ReportResponse) (p : Nat × List Char) :
    taskResult (fun a => Except.ok (fetch a)) p = Except.ok (fetchedSections fetch p.2) := by
  simp [taskResult, Except.map, fetchedSections, gcr_fst]

theorem runTasksE_ok_join (tasks : List (Except PyError (List Section)))
    (h : ∀ t ∈ tasks, ∃ secs nfs, t = Except.ok secs ∧ normalizeReport secs = Except.ok nfs) :
    runTasksE tasks = Except.ok ((tasks.map taskFindings).flatten) := by
  induction tasks with
  | nil => rfl
  | cons t rest ih =>
    obtain ⟨secs, nfs, ht, hn⟩ := h t (by simp)
    subst ht
    have hok : okFindings secs = nfs := by simp [okFindings, hn]
    have ih2 := ih (fun u hu => h u (by simp [hu]))
    simp [runTasksE, hn, ih2, taskFindings, hok]

theorem sum_map_const {α : Type} (l : List α) (f : α → Nat) (R : Nat)
    (h : ∀ x ∈ l, f x = R) : (l.map f).sum = l.length * R := by
  induction l with
  | nil => simp
  | cons x rest ih =>
    rw [List.map_cons, List.sum_cons, h x (List.mem_cons_self x rest),
      ih (fun y hy => h y (List.mem_cons_of_mem x hy)), List.length_cons]
    ring

theorem snd_mem_of_mem_enumFrom {α : Type} (l : List α) (n : Nat) (p : Nat × α)
    (h : p ∈ l.enumFrom n) : p.2 ∈ l := by
  induction l generalizing n with
  | nil => cases h
  | cons a rest ih =>
    simp only [List.enumFrom] at h
    rcases List.mem_cons.mp h with rfl | h2
    · simp
    · exact List.mem_cons_of_mem a (ih (n + 1) h2)

theorem mem_enumFrom_of_mem {α : Type} (l : List α) (a : α) (n : Nat) (h : a ∈ l) :
    ∃ i, (i, a) ∈ l.enumFrom n := by
  induction l generalizing n with
  | nil => cases h
  | cons b rest ih =>
    rcases List.mem_cons.mp h with rfl | h2
    · exact ⟨n, by simp [List.enumFrom]⟩
    · obtain ⟨i, hi⟩ := ih (n + 1) h2
      exact ⟨i, by simp [List.enumFrom, hi]⟩

/-- C1: over resolved accounts whose fetched reports each normalize to
R findings, the orchestrator run succeeds with exactly M times R
output records, and the multiset of (account_id, severity,
resource_count) attribution keys of the output is identical for every
completion order of the per-account tasks. -/
theorem C1_order_independence
    (fetch : List Char → ReportResponse) (accounts : List (List Char)) (R : Nat)
    (h : ∀ a ∈ accounts, ∃ nfs,
      normalizeReport (fetchedSections fetch a) = Except.ok nfs ∧ nfs.length = R)
    (order1 order2 : List (Nat × List Char))
    (h1 : List.Perm order1 accounts.enum) (h2 : List.Perm order2 accounts.enum) :
    ∃ out1 out2,
      orchestrate (fun a => Except.ok (fetch a)) order1 = Except.ok out1 ∧
      orchestrate (fun a => Except.ok (fetch a)) order2 = Except.ok out2 ∧
      out1.length = accounts.length * R ∧
      Multiset.ofList (out1.map findingKey) = Multiset.ofList (out2.map findingKey) := by
  have key : ∀ (order : List (Nat × List Char)), (∀ p ∈ order, p.2 ∈ accounts) →
      orchestrate (fun a => Except.ok (fetch a)) order =
        Except.ok ((order.map (fun p => okFindings (fetchedSections fetch p.2))).flatten) := by
    intro order hmem
    have hys : ∀ t ∈ order.map (taskResult (fun a => Except.ok (fetch a))),
        ∃ secs nfs, t = Except.ok secs ∧ normalizeReport secs = Except.ok nfs := by
      intro t ht
      obtain ⟨p, hp, rfl⟩ := List.mem_map.mp ht
      obtain ⟨nfs, hn, _⟩ := h p.2 (hmem p hp)
      exact ⟨fetchedSections fetch p.2, nfs, taskResult_pure fetch p, hn⟩
    unfold orchestrate
    rw [runTasksE_ok_join _ hys]
    congr 1
    rw [List.map_map]
    congr 1
    apply List.map_congr_left
    intro p hp
    simp [Function.comp, taskResult_pure, taskFindings]
  have hmem1 : ∀ p ∈ order1, p.2 ∈ accounts :=
    fun p hp => snd_mem_of_mem_enumFrom accounts 0 p (h1.mem_iff.mp hp)
  have hmem2 : ∀ p ∈ order2, p.2 ∈ accounts :=
    fun p hp => snd_mem_of_mem_enumFrom accounts 0 p (h2.mem_iff.mp hp)
  refine ⟨_, _, key order1 hmem1, key order2 hmem2, ?_, ?_⟩
  · rw [List.length_flatten, List.map_map]
    have hconst : ∀ p ∈ order1,
        (List.length ∘ fun p => okFindings (fetchedSections fetch p.2)) p = R := by
      intro p hp
      obtain ⟨nfs, hn, hR⟩ := h p.2 (hmem1 p hp)
      simp [Function.comp, okFindings, hn, hR]
    rw [sum_map_const order1 _ R hconst, h1.length_eq, List.enum_length]
  · have hperm : List.Perm (order1.map (fun p => okFindings (fetchedSections fetch p.2)))
        (order2.map (fun p => okFindings (fetchedSections fetch p.2))) :=
      (h1.trans h2.symm).map _
    exact Multiset.coe_eq_coe.mpr (hperm.flatten.map findingKey)

theorem C1_witness :
    ∃ out1 out2,
      orchestrate
        (fun _ => Except.ok (ReportResponse.mk (some [Section.mk (some [sampleRec])])))
        [(0, "111111111111".toList), (1, "222222222222".toList)] = Except.ok out1 ∧
      orchestrate
        (fun _ => Except.ok (ReportResponse.mk (some [Section.mk (some [sampleRec])])))
        [(1, "222222222222".toList), (0, "111111111111".toList)] = Except.ok out2 ∧
      out1.length = ["111111111111".toList, "222222222222".toList].length * 1 ∧
      Multiset.ofList (out1.map findingKey) = Multiset.ofList (out2.map findingKey) :=
  C1_order_independence
    (fun _ => ReportResponse.mk (some [Section.mk (some [sampleRec])]))
    ["111111111111".toList, "222222222222".toList] 1
    (fun a _ => ⟨[sampleFinding], rfl, rfl⟩)
    [(0, "111111111111".toList), (1, "222222222222".toList)]
    [(1, "222222222222".toList), (0, "111111111111".toList)]
    (List.Perm.refl _) (by decide)

theorem runTasksE_err (tasks : List (Except PyError (List Section)))
    (h : ∃ t ∈ tasks, ∃ e, t = Except.error e) :
    ∃ e, runTasksE tasks = Except.error e := by
  induction tasks with
  | nil =>
    obtain ⟨t, ht, _⟩ := h
    cases ht
  | cons t rest ih =>
    obtain ⟨t0, ht0, e0, he0⟩ := h
    rcases List.mem_cons.mp ht0 with rfl | hmem
    · subst he0
      exact ⟨e0, rfl⟩
    · rcases t with e | secs
      · exact ⟨e, rfl⟩
      · rcases hn : normalizeReport secs with e | fs
        · exact ⟨e, by simp [runTasksE, hn]⟩
        · obtain ⟨e, he⟩ := ih ⟨t0, hmem, e0, he0⟩
          exact ⟨e, by simp [runTasksE, hn, he]⟩

/-- C2: when account resolution raises, or any fetch task of a
completed run raises, the whole run fails: the process exits with a
non-zero status and nothing is printed to standard output, in
particular no partial JSON array from tasks that had already
completed. -/
theorem C2_fail_fast (configs : List CloudAccountConfig)
    (fetch : List Char → Except PyError ReportResponse)
    (sched : List (Nat × List Char) → List (Nat × List Char))
    (h : (∃ e, get_aws_account_ids configs = Except.error e) ∨
      (∃ accounts, get_aws_account_ids configs = Except.ok accounts ∧
        List.Perm (sched accounts.enum) accounts.enum ∧
        ∃ a ∈ accounts, ∃ e, fetch a = Except.error e)) :
    (∃ e, mainRun configs fetch sched = Except.error e) ∧
    printedOutput (mainRun configs fetch sched) = none ∧
    exitCode (mainRun configs fetch sched) ≠ 0 := by
  have herr : ∃ e, mainRun configs fetch sched = Except.error e := by
    rcases h with ⟨e, he⟩ | ⟨accounts, hacc, hperm, a, hmem, e, hfe⟩
    · exact ⟨e, by simp [mainRun, he]⟩
    · obtain ⟨i, hi⟩ := mem_enumFrom_of_mem accounts a 0 hmem
      have hi2 : (i, a) ∈ sched accounts.enum := hperm.mem_iff.mpr hi
      have htask : taskResult fetch (i, a) = Except.error e := by
        simp [taskResult, Except.map, hfe]
      have hin : taskResult fetch (i, a) ∈ (sched accounts.enum).map (taskResult fetch) :=
        List.mem_map_of_mem _ hi2
      obtain ⟨e2, he2⟩ := runTasksE_err _ ⟨_, hin, e, htask⟩
      exact ⟨e2, by simp [mainRun, hacc, orchestrate, he2]⟩
  obtain ⟨e, he⟩ := herr
  exact ⟨⟨e, he⟩, by simp [printedOutput, he], by simp [exitCode, he]⟩

/-- A well-formed configuration for the failure scenario. -/
def sampleCfg : CloudAccountConfig :=
  CloudAccountConfig.mk (some (CredsField.mk (some (RoleArnField.mk
    (some (mkRoleArn "791529083252".toList "lw-md-laceworkcwssarole".toList))))))

theorem C2_witness :
    (∃ e, mainRun [sampleCfg] (fun _ => Except.error PyError.apiError) id
      = Except.error e) ∧
    printedOutput (mainRun [sampleCfg] (fun _ => Except.error PyError.apiError) id) = none ∧
    exitCode (mainRun [sampleCfg] (fun _ => Except.error PyError.apiError) id) ≠ 0 :=
  C2_fail_fast [sampleCfg] (fun _ => Except.error PyError.apiError) id
    (Or.inr ⟨["791529083252".toList], rfl, List.Perm.refl _,
      "791529083252".toList, by decide, PyError.apiError, rfl⟩)
